import Mathlib

/-!
Verification development for the call-me-designer outline editor.

The definitions below are shallow embeddings of the TypeScript sources:

* `src/utils/imageProcessing.ts` — the alpha-channel box blur
  (`blurAlphaChannel`) and the effective radius used by
  `generateOutlineCoordinates`.
* `src/components/EditorCanvas.tsx` — the history store (`saveHistory`,
  `undo`, `redo`, history reset), the pointer-tool state machine
  (`onMouseDown`, `onMouseDrag`, `onMouseUp`) and the export entry points
  (`exportSVGAligned`, `exportSVGTrimmed`, `exportPDF`).

Machine integers are modelled as `Nat`/`Int`; `Uint8Array` stores truncate
the quotient `sum / count`, which for non-negative operands is `Nat`
division.  Imperative in-place updates are modelled by explicit state
passing: a function returns the new contents of the buffer or state it
mutates.
-/

namespace CallMeDesigner

/-! ## Image processing (`src/utils/imageProcessing.ts`)

`blurAlphaChannel(data, width, height, radius)` operates on an RGBA byte
buffer `data` of length `4*width*height`.  It extracts the alpha bytes
`data[4*i+3]`, runs a horizontal box-blur pass into `temp`, a vertical
pass into `blurredAlpha`, and finally writes `blurredAlpha` back into the
alpha bytes of `data`.  `radius <= 0` returns `data` unchanged.
-/

/-- Index clamping `Math.min(lim - 1, Math.max(0, j))` used by both blur
passes to keep window indices inside `[0, lim-1]`. -/
def clampIdx (lim : Nat) (j : Int) : Nat :=
  (min ((lim : Int) - 1) (max 0 j)).toNat

/-- Sum of the horizontal window `[x-r, x+r]` on row `y`, with edge-clamped
column indices, read from the flattened field `alpha` of width `w`. -/
def windowSumH (alpha : List Nat) (w y x r : Nat) : Nat :=
  ((List.range (2 * r + 1)).map (fun (k : Nat) =>
    alpha.getD (y * w + clampIdx w ((x : Int) + (k : Int) - (r : Int))) 0)).sum

/-- Horizontal pass: `temp[y*w+x] = (sum over window) / count` with
`count = 2*r+1`; the `Uint8Array` store truncates, i.e. `Nat` division. -/
def horizPass (alpha : List Nat) (w h r : Nat) : List Nat :=
  (List.range (w * h)).map (fun i => windowSumH alpha w (i / w) (i % w) r / (2 * r + 1))

/-- Sum of the vertical window `[y-r, y+r]` in column `x`, with edge-clamped
row indices, read from the flattened field `t` of width `w`, height `h`. -/
def windowSumV (t : List Nat) (w h y x r : Nat) : Nat :=
  ((List.range (2 * r + 1)).map (fun (k : Nat) =>
    t.getD (clampIdx h ((y : Int) + (k : Int) - (r : Int)) * w + x) 0)).sum

/-- Vertical pass: `blurredAlpha[y*w+x] = (sum over window) / count`. -/
def vertPass (t : List Nat) (w h r : Nat) : List Nat :=
  (List.range (w * h)).map (fun i => windowSumV t w h (i / w) (i % w) r / (2 * r + 1))

/-- The `blurredAlpha` array computed from an extracted alpha field:
horizontal pass into `temp`, then vertical pass. -/
def blurredAlphaOf (alpha : List Nat) (w h r : Nat) : List Nat :=
  vertPass (horizPass alpha w h r) w h r

/-- The alpha extraction loop `alpha[i] = data[i * 4 + 3]`. -/
def extractAlpha (data : List Nat) (len : Nat) : List Nat :=
  (List.range len).map (fun i => data.getD (i * 4 + 3) 0)

/-- The blur applied at the level of an already-extracted alpha field
(the early-return `radius <= 0` check included). -/
def blurAlphaField (alpha : List Nat) (w h r : Nat) : List Nat :=
  if r = 0 then alpha else blurredAlphaOf alpha w h r

/-- Full `blurAlphaChannel`: the contents of the RGBA buffer `data` after
the call.  For `radius <= 0` the buffer is untouched; otherwise the alpha
bytes `data[4*i+3]` (for `i < width*height`) are overwritten with the
blurred values and every other byte is left as it was. -/
def blurAlphaChannel (data : List Nat) (w h r : Nat) : List Nat :=
  if r = 0 then data
  else
    let len := w * h
    let b := blurredAlphaOf (extractAlpha data len) w h r
    (List.range data.length).map (fun i =>
      if i % 4 = 3 ∧ i / 4 < len then b.getD (i / 4) 0 else data.getD i 0)

/-- The radius `generateOutlineCoordinates` passes to the blur stage:
`Math.max(1, blurRadius)`. -/
def effectiveBlurRadius (blurRadius : Nat) : Nat := max 1 blurRadius

/-- The blur stage of `generateOutlineCoordinates`:
`blurAlphaChannel(imageData.data, w, h, Math.max(1, blurRadius))`. -/
def generateOutlineBlur (data : List Nat) (w h blurRadius : Nat) : List Nat :=
  blurAlphaChannel data w h (effectiveBlurRadius blurRadius)

/-! ## Editor state (`src/components/EditorCanvas.tsx`)

Paths are modelled as lists of nodes; a node is an anchor point with two
relative handle offsets (Paper.js `Segment` with `point`, `handleIn`,
`handleOut`).  The `outlines` group may be absent (`none`) before the
first generation completes.  History snapshots (`exportJSON` of the
group) are modelled as deep copies of the path list.  The tool-closure
variables `segment`, `lastClickTime`, `isDragging` and the two history
refs are the remaining state.
-/

/-- A path node: the Paper.js segment `point` plus relative `handleIn`
and `handleOut` offsets. -/
structure PathNode where
  point : Int × Int
  handleIn : Int × Int
  handleOut : Int × Int
deriving DecidableEq, Repr

/-- A vector path is its ordered list of nodes. -/
abbrev VectorPath := List PathNode

/-- The contents of the `outlines` group: the document's paths.  A history
snapshot is a deep copy of this. -/
abbrev Document := List VectorPath

/-- A node with the given anchor and zero-length handles, as created by
Paper.js `Path.insert(index, point)`. -/
def zeroNode (pt : Int × Int) : PathNode := ⟨pt, (0, 0), (0, 0)⟩

/-- Insert a node with zero handles at index `i` of path `p`
(`hitResult.item.insert(location.index + 1, event.point)`). -/
def docInsert (doc : Document) (p i : Nat) (pt : Int × Int) : Document :=
  doc.set p ((doc.getD p []).take i ++ zeroNode pt :: (doc.getD p []).drop i)

/-- Remove node `n` of path `p` (`hitResult.segment.remove()`). -/
def docRemove (doc : Document) (p n : Nat) : Document :=
  doc.set p ((doc.getD p []).take n ++ (doc.getD p []).drop (n + 1))

/-- Translate node `n` of path `p` by `delta`
(`segment.point.x += event.delta.x; segment.point.y += event.delta.y`). -/
def docTranslate (doc : Document) (p n : Nat) (delta : Int × Int) : Document :=
  doc.set p ((doc.getD p []).set n
    (let nd := (doc.getD p []).getD n (zeroNode (0, 0))
     { nd with point := (nd.point.1 + delta.1, nd.point.2 + delta.2) }))

/-- The editor's mutable state: the `outlines` group (absent before the
first generation renders), the history refs, and the tool-closure
variables. -/
structure EditorState where
  outlines : Option Document
  history : List Document
  historyIndex : Int
  segment : Option (Nat × Nat)
  lastClickTime : Int
  isDragging : Bool
deriving DecidableEq, Repr

/-- JavaScript `entries.slice(0, e)` (a negative end counts from the end of
the array). -/
def jsSlice (l : List Document) (e : Int) : List Document :=
  if e < 0 then l.take ((l.length : Int) + e).toNat else l.take e.toNat

/-- The push portion of `saveHistory` (lines 43-48): truncate the redo
branch when the cursor is behind the tail, then append and advance. -/
def pushHistory (entries : List Document) (cursor : Int) (snap : Document) :
    List Document × Int :=
  let entries' := if cursor < (entries.length : Int) - 1
                  then jsSlice entries (cursor + 1) else entries
  (entries' ++ [snap], cursor + 1)

/-- `saveHistory`: return unchanged when the `outlines` group does not
exist; otherwise push the current paths as a snapshot. -/
def saveHistory (s : EditorState) : EditorState :=
  match s.outlines with
  | none => s
  | some doc =>
    let pushed := pushHistory s.history s.historyIndex doc
    { s with history := pushed.1, historyIndex := pushed.2 }

/-- The first argument of `onHistoryChange` in `notifyHistoryChange`:
`historyIndexRef.current > 0`. -/
def canUndo (cursor : Int) : Prop := 0 < cursor

/-- The second argument of `onHistoryChange`:
`historyIndexRef.current < historyRef.current.length - 1`. -/
def canRedo (entries : List Document) (cursor : Int) : Prop :=
  cursor < (entries.length : Int) - 1

/-- `undo`: no-op unless `historyIndexRef.current > 0`; otherwise decrement
the cursor and restore that snapshot as the new `outlines` group. -/
def undo (s : EditorState) : EditorState :=
  if 0 < s.historyIndex then
    let idx := s.historyIndex - 1
    { s with historyIndex := idx, outlines := some (s.history.getD idx.toNat []) }
  else s

/-- `redo`: no-op unless the cursor is strictly before the tail; otherwise
increment the cursor and restore that snapshot. -/
def redo (s : EditorState) : EditorState :=
  if s.historyIndex < (s.history.length : Int) - 1 then
    let idx := s.historyIndex + 1
    { s with historyIndex := idx, outlines := some (s.history.getD idx.toNat []) }
  else s

/-- The history reset performed when a new generation starts (lines
393-394): `historyRef.current = []; historyIndexRef.current = -1`. -/
def resetHistory (s : EditorState) : EditorState :=
  { s with history := [], historyIndex := -1 }

/-- Outcome of `scope.project.hitTest(event.point, hitOptions)` as consumed
by `onMouseDown`: nothing, a node anchor (`type === "segment"`), or a point
on a stroke (`type === "stroke"`, carrying the curve index of the hit
location). -/
inductive HitOutcome where
  | missed
  | segmentHit (pathIdx nodeIdx : Nat)
  | strokeHit (pathIdx curveIdx : Nat)
deriving DecidableEq, Repr

/-- `tool.onMouseDown` (lines 314-347).  Clears `segment`/`isDragging`,
detects a double click (`now - lastClickTime < 300`), updates
`lastClickTime`, then branches on the hit result: double-click on a node
removes it and commits; single click on a node grabs it; a stroke hit
inserts a node at `location.index + 1`, commits, and grabs the new node;
a miss does nothing further. -/
def onMouseDown (s : EditorState) (now : Int) (hit : HitOutcome)
    (pt : Int × Int) : EditorState :=
  let isDoubleClick := now - s.lastClickTime < 300
  let s1 := { s with segment := none, isDragging := false, lastClickTime := now }
  match hit with
  | .missed => s1
  | .segmentHit p n =>
      if isDoubleClick then
        saveHistory { s1 with outlines := s1.outlines.map (fun d => docRemove d p n) }
      else
        { s1 with segment := some (p, n) }
  | .strokeHit p c =>
      saveHistory
        { s1 with outlines := s1.outlines.map (fun d => docInsert d p (c + 1) pt),
                  segment := some (p, c + 1) }

/-- `tool.onMouseDrag` (lines 349-355): when a node is grabbed, set
`isDragging` and translate the grabbed node by `event.delta`. -/
def onMouseDrag (s : EditorState) (delta : Int × Int) : EditorState :=
  match s.segment with
  | none => s
  | some pn =>
      { s with isDragging := true,
               outlines := s.outlines.map (fun d => docTranslate d pn.1 pn.2 delta) }

/-- `tool.onMouseUp` (lines 357-363): commit a snapshot when `isDragging`
is set, then clear `isDragging` and release the grabbed node. -/
def onMouseUp (s : EditorState) : EditorState :=
  let s1 := if s.isDragging then saveHistory s else s
  { s1 with isDragging := false, segment := none }

/-! ## Exporters (`EditorCanvas.tsx`, `useImperativeHandle` block)

For the export entry points we model what is handed to the browser's
download machinery: `none` means the handler returned before producing
output (nothing written), `some` carries the serialized view: its bounds
and the path content (the raster is hidden for SVG export; `getD []`
reflects that a project without an `outlines` group serializes no paths).
-/

/-- Environment an export call runs in: the scope ref, the image
dimensions from `appState`, the `outlines` group, and raster presence. -/
structure ExportEnv where
  scopePresent : Bool
  imageWidth : Nat
  imageHeight : Nat
  outlines : Option Document
  rasterPresent : Bool
deriving DecidableEq, Repr

/-- Serialized SVG content: export bounds (x, y, width, height) and the
paths the project serializes. -/
structure SvgOut where
  boundsX : Int
  boundsY : Int
  boundsW : Int
  boundsH : Int
  content : Document
deriving DecidableEq, Repr

/-- `exportSVGAligned`: returns early (writes nothing) only when the scope
is missing or either image dimension is zero (falsy); otherwise serializes
the project with bounds `(0, 0, imageWidth, imageHeight)` and triggers the
download, even when no paths exist. -/
def exportSVGAligned (e : ExportEnv) : Option SvgOut :=
  if ¬ e.scopePresent ∨ e.imageWidth = 0 ∨ e.imageHeight = 0 then none
  else some ⟨0, 0, e.imageWidth, e.imageHeight, e.outlines.getD []⟩

/-- `exportSVGTrimmed`: same scope/dimension guard, then additionally
returns early when the `outlines` group does not exist; otherwise exports
the paths (with stroke-padded bounds, abstracted here as the path content
actually written). -/
def exportSVGTrimmed (e : ExportEnv) : Option Document :=
  if ¬ e.scopePresent ∨ e.imageWidth = 0 ∨ e.imageHeight = 0 then none
  else
    match e.outlines with
    | none => none
    | some doc => some doc

/-- Output of `exportPDF`: the fixed page size, whether the raster draw
was attempted, and the paths stroked onto the page. -/
structure PdfOut where
  pageW : Nat
  pageH : Nat
  rasterDrawn : Bool
  pathsDrawn : Document
deriving DecidableEq, Repr

/-- `exportPDF`: returns early only on the scope/dimension guard; otherwise
always saves a PDF sized `imageWidth × imageHeight`, drawing the raster if
present and the paths of the `outlines` group if it exists. -/
def exportPDF (e : ExportEnv) : Option PdfOut :=
  if ¬ e.scopePresent ∨ e.imageWidth = 0 ∨ e.imageHeight = 0 then none
  else some ⟨e.imageWidth, e.imageHeight, e.rasterPresent, e.outlines.getD []⟩

/-- The history invariant of the spec data model: the cursor is a valid
index whenever entries exist, and is `-1` exactly when they do not. -/
def HistInv (entries : List Document) (cursor : Int) : Prop :=
  (entries ≠ [] → 0 ≤ cursor ∧ cursor < (entries.length : Int))
  ∧ (cursor = -1 ↔ entries = [])

/-- A 2x1 RGBA buffer whose two pixels have alpha 0 and 255; used as a
concrete blur input. -/
def exData : List Nat := [0, 0, 0, 0, 0, 0, 0, 255]

/-- A one-node document used as a concrete editing fixture. -/
def exDoc : Document := [[zeroNode (0, 0)]]

/-- An editor state that has just grabbed (single-clicked) the only node
of `exDoc`, with that document as the last committed snapshot. -/
def exDragState : EditorState :=
  { outlines := some exDoc, history := [exDoc], historyIndex := 0,
    segment := some (0, 0), lastClickTime := 0, isDragging := false }

/-- An export environment with a live scope, a 100x100 image, a raster,
and zero paths (no `outlines` group). -/
def exNoPathEnv : ExportEnv :=
  { scopePresent := true, imageWidth := 100, imageHeight := 100,
    outlines := none, rasterPresent := true }

/-! ## Helper lemmas -/

theorem getD_range_map_of_lt (f : Nat → Nat) (n i : Nat) (hi : i < n) :
    ((List.range n).map f).getD i 0 = f i := by
  rw [List.getD_eq_getElem _ _ (by simpa using hi)]
  simp

theorem getD_range_map_of_ge (f : Nat → Nat) (n i : Nat) (hi : n ≤ i) :
    ((List.range n).map f).getD i 0 = 0 :=
  List.getD_eq_default _ _ (by simpa using hi)

theorem getD_le_of_forall (l : List Nat) (h : ∀ v ∈ l, v ≤ 255) (i : Nat) :
    l.getD i 0 ≤ 255 := by
  by_cases hi : i < l.length
  · rw [List.getD_eq_getElem _ _ hi]
    exact h _ (List.getElem_mem _)
  · rw [List.getD_eq_default _ _ (by omega)]
    omega

theorem windowSumH_le (alpha : List Nat) (w y x r : Nat)
    (h : ∀ v ∈ alpha, v ≤ 255) :
    windowSumH alpha w y x r ≤ (2 * r + 1) * 255 := by
  unfold windowSumH
  have hb : ∀ v ∈ (List.range (2 * r + 1)).map (fun (k : Nat) =>
      alpha.getD (y * w + clampIdx w ((x : Int) + (k : Int) - (r : Int))) 0), v ≤ 255 := by
    intro v hv
    obtain ⟨k, _, rfl⟩ := List.mem_map.mp hv
    exact getD_le_of_forall alpha h _
  have h1 := List.sum_le_card_nsmul _ 255 hb
  rw [List.length_map, List.length_range, smul_eq_mul] at h1
  exact h1

theorem windowSumV_le (t : List Nat) (w h y x r : Nat)
    (ht : ∀ v ∈ t, v ≤ 255) :
    windowSumV t w h y x r ≤ (2 * r + 1) * 255 := by
  unfold windowSumV
  have hb : ∀ v ∈ (List.range (2 * r + 1)).map (fun (k : Nat) =>
      t.getD (clampIdx h ((y : Int) + (k : Int) - (r : Int)) * w + x) 0), v ≤ 255 := by
    intro v hv
    obtain ⟨k, _, rfl⟩ := List.mem_map.mp hv
    exact getD_le_of_forall t ht _
  have h1 := List.sum_le_card_nsmul _ 255 hb
  rw [List.length_map, List.length_range, smul_eq_mul] at h1
  exact h1

theorem horizPass_mem_le (alpha : List Nat) (w h r : Nat)
    (ha : ∀ v ∈ alpha, v ≤ 255) :
    ∀ v ∈ horizPass alpha w h r, v ≤ 255 := by
  intro v hv
  obtain ⟨i, _, rfl⟩ := List.mem_map.mp hv
  have hs := windowSumH_le alpha w (i / w) (i % w) r ha
  calc windowSumH alpha w (i / w) (i % w) r / (2 * r + 1)
      ≤ (2 * r + 1) * 255 / (2 * r + 1) := Nat.div_le_div_right hs
    _ = 255 := Nat.mul_div_cancel_left _ (by omega)

theorem vertPass_mem_le (t : List Nat) (w h r : Nat)
    (ht : ∀ v ∈ t, v ≤ 255) :
    ∀ v ∈ vertPass t w h r, v ≤ 255 := by
  intro v hv
  obtain ⟨i, _, rfl⟩ := List.mem_map.mp hv
  have hs := windowSumV_le t w h (i / w) (i % w) r ht
  calc windowSumV t w h (i / w) (i % w) r / (2 * r + 1)
      ≤ (2 * r + 1) * 255 / (2 * r + 1) := Nat.div_le_div_right hs
    _ = 255 := Nat.mul_div_cancel_left _ (by omega)

theorem getD_set_self {α : Type} (l : List α) (p : Nat) (a d : α)
    (hp : p < l.length) : (l.set p a).getD p d = a := by
  rw [List.getD_eq_getElem?_getD, List.getElem?_set_self (by omega)]
  simp

theorem getD_set_ne {α : Type} (l : List α) (p q : Nat) (a d : α)
    (h : q ≠ p) : (l.set p a).getD q d = l.getD q d := by
  simp [List.getD_eq_getElem?_getD, List.getElem?_set_ne (by omega : p ≠ q)]

theorem removeAt_getD_lt {α : Type} (L : List α) (n j : Nat) (d : α)
    (hj : j < n) (hn : n ≤ L.length) :
    (L.take n ++ L.drop (n + 1)).getD j d = L.getD j d := by
  have hlen : (L.take n).length = n := by rw [List.length_take]; omega
  rw [List.getD_eq_getElem?_getD, List.getD_eq_getElem?_getD, List.getElem?_append,
    if_pos (by rw [hlen]; omega), List.getElem?_take, if_pos hj]

theorem removeAt_getD_ge {α : Type} (L : List α) (n j : Nat) (d : α)
    (hj : n ≤ j) (hn : n < L.length) :
    (L.take n ++ L.drop (n + 1)).getD j d = L.getD (j + 1) d := by
  have hlen : (L.take n).length = n := by rw [List.length_take]; omega
  rw [List.getD_eq_getElem?_getD, List.getD_eq_getElem?_getD,
    List.getElem?_append_right (by rw [hlen]; omega), hlen, List.getElem?_drop]
  have hidx : n + 1 + (j - n) = j + 1 := by omega
  rw [hidx]

theorem removeAt_length {α : Type} (L : List α) (n : Nat) (hn : n < L.length) :
    (L.take n ++ L.drop (n + 1)).length + 1 = L.length := by
  rw [List.length_append, List.length_take, List.length_drop]
  omega

theorem insertAt_getD_self {α : Type} (L : List α) (i : Nat) (z d : α)
    (hi : i ≤ L.length) :
    (L.take i ++ z :: L.drop i).getD i d = z := by
  have hlen : (L.take i).length = i := by rw [List.length_take]; omega
  rw [List.getD_eq_getElem?_getD, List.getElem?_append_right (by omega), hlen]
  simp

theorem insertAt_getD_lt {α : Type} (L : List α) (i j : Nat) (z d : α)
    (hj : j < i) (hi : i ≤ L.length) :
    (L.take i ++ z :: L.drop i).getD j d = L.getD j d := by
  have hlen : (L.take i).length = i := by rw [List.length_take]; omega
  rw [List.getD_eq_getElem?_getD, List.getD_eq_getElem?_getD, List.getElem?_append,
    if_pos (by rw [hlen]; omega), List.getElem?_take, if_pos hj]

theorem insertAt_getD_gt {α : Type} (L : List α) (i j : Nat) (z d : α)
    (hj : i < j) (hi : i ≤ L.length) :
    (L.take i ++ z :: L.drop i).getD j d = L.getD (j - 1) d := by
  have hlen : (L.take i).length = i := by rw [List.length_take]; omega
  rw [List.getD_eq_getElem?_getD, List.getD_eq_getElem?_getD,
    List.getElem?_append_right (by rw [hlen]; omega), hlen]
  obtain ⟨m, hm⟩ : ∃ m, j - i = m + 1 := ⟨j - i - 1, by omega⟩
  rw [hm, List.getElem?_cons_succ, List.getElem?_drop]
  have hidx : i + m = j - 1 := by omega
  rw [hidx]

theorem insertAt_length {α : Type} (L : List α) (i : Nat) (z : α)
    (hi : i ≤ L.length) :
    (L.take i ++ z :: L.drop i).length = L.length + 1 := by
  rw [List.length_append, List.length_cons, List.length_take, List.length_drop]
  omega

theorem pushHistory_spec (entries : List Document) (cursor : Int) (snap : Document)
    (h1 : -1 ≤ cursor) (h2 : cursor ≤ (entries.length : Int) - 1) :
    (pushHistory entries cursor snap).2 = cursor + 1
    ∧ ((pushHistory entries cursor snap).1.length : Int) = cursor + 2
    ∧ (pushHistory entries cursor snap).1.getD (cursor + 1).toNat [] = snap
    ∧ (cursor < (entries.length : Int) - 1 →
        (pushHistory entries cursor snap).1
          = entries.take (cursor + 1).toNat ++ [snap])
    ∧ (cursor = (entries.length : Int) - 1 →
        (pushHistory entries cursor snap).1 = entries ++ [snap]) := by
  unfold pushHistory jsSlice
  by_cases hc : cursor < (entries.length : Int) - 1
  · have hnn : ¬ (cursor + 1 < 0) := by omega
    have hlen : (entries.take (cursor + 1).toNat).length = (cursor + 1).toNat := by
      rw [List.length_take]; omega
    simp only [if_pos hc, if_neg hnn]
    refine ⟨by trivial, ?_, ?_, fun _ => by trivial, fun he => absurd he (by omega)⟩
    · rw [List.length_append, hlen, List.length_cons, List.length_nil]
      omega
    · rw [List.getD_eq_getElem?_getD, List.getElem?_append_right (by omega), hlen]
      simp
  · have hce : (cursor + 1).toNat = entries.length := by omega
    simp only [if_neg hc]
    refine ⟨by trivial, ?_, ?_, fun hlt => absurd hlt hc, fun _ => by trivial⟩
    · rw [List.length_append, List.length_cons, List.length_nil]
      omega
    · rw [List.getD_eq_getElem?_getD, List.getElem?_append_right (by omega), hce]
      simp

theorem histInv_intro (entries : List Document) (cursor : Int)
    (h0 : 0 ≤ cursor) (h1 : cursor < (entries.length : Int)) :
    HistInv entries cursor := by
  refine ⟨fun _ => ⟨h0, h1⟩, iff_of_false (by omega) ?_⟩
  intro he
  rw [he] at h1
  simp at h1
  omega

/-! ## Claims -/

/-- C1 counterexample: blurring the 2x1 buffer `exData` with radius 1
changes the buffer contents (alpha bytes 0 and 255 become 85 and 170), so
after the blur operation the values of the input field do NOT all equal
their values before the call — the input is mutated in place. -/
theorem c1_no_input_mutation_counterexample :
    blurAlphaChannel exData 2 1 1 ≠ exData := by decide

/-- C1 amended: `blurAlphaChannel` preserves the buffer's dimensions
(same length, and bytes outside the alpha channel or outside the field are
untouched), but it writes the blurred field back into the input buffer:
for a positive radius every alpha byte of the field afterwards holds the
two-pass blurred value, so the input is mutated in place rather than left
intact. -/
theorem c1_blur_writes_back_in_place (data : List Nat) (w h r : Nat) :
    (blurAlphaChannel data w h r).length = data.length
    ∧ (∀ i, i % 4 ≠ 3 →
        (blurAlphaChannel data w h r).getD i 0 = data.getD i 0)
    ∧ (∀ i, w * h ≤ i / 4 →
        (blurAlphaChannel data w h r).getD i 0 = data.getD i 0)
    ∧ (r ≠ 0 → ∀ i, i < w * h → 4 * i + 3 < data.length →
        (blurAlphaChannel data w h r).getD (4 * i + 3) 0
          = (blurredAlphaOf (extractAlpha data (w * h)) w h r).getD i 0) := by
  by_cases hr : r = 0
  · simp [blurAlphaChannel, hr]
  · refine ⟨?_, ?_, ?_, ?_⟩
    · simp [blurAlphaChannel, hr]
    · intro i hi
      by_cases hlen : i < data.length
      · rw [show blurAlphaChannel data w h r = (List.range data.length).map (fun i =>
            if i % 4 = 3 ∧ i / 4 < w * h
            then (blurredAlphaOf (extractAlpha data (w * h)) w h r).getD (i / 4) 0
            else data.getD i 0) from by simp [blurAlphaChannel, hr]]
        rw [getD_range_map_of_lt _ _ _ hlen]
        simp [hi]
      · rw [show blurAlphaChannel data w h r = (List.range data.length).map (fun i =>
            if i % 4 = 3 ∧ i / 4 < w * h
            then (blurredAlphaOf (extractAlpha data (w * h)) w h r).getD (i / 4) 0
            else data.getD i 0) from by simp [blurAlphaChannel, hr]]
        rw [getD_range_map_of_ge _ _ _ (by omega)]
        rw [List.getD_eq_default _ _ (by omega)]
    · intro i hi
      by_cases hlen : i < data.length
      · rw [show blurAlphaChannel data w h r = (List.range data.length).map (fun i =>
            if i % 4 = 3 ∧ i / 4 < w * h
            then (blurredAlphaOf (extractAlpha data (w * h)) w h r).getD (i / 4) 0
            else data.getD i 0) from by simp [blurAlphaChannel, hr]]
        rw [getD_range_map_of_lt _ _ _ hlen]
        have : ¬ (i % 4 = 3 ∧ i / 4 < w * h) := by omega
        simp [this]
      · rw [show blurAlphaChannel data w h r = (List.range data.length).map (fun i =>
            if i % 4 = 3 ∧ i / 4 < w * h
            then (blurredAlphaOf (extractAlpha data (w * h)) w h r).getD (i / 4) 0
            else data.getD i 0) from by simp [blurAlphaChannel, hr]]
        rw [getD_range_map_of_ge _ _ _ (by omega)]
        rw [List.getD_eq_default _ _ (by omega)]
    · intro _ i hi hlen
      rw [show blurAlphaChannel data w h r = (List.range data.length).map (fun i =>
          if i % 4 = 3 ∧ i / 4 < w * h
          then (blurredAlphaOf (extractAlpha data (w * h)) w h r).getD (i / 4) 0
          else data.getD i 0) from by simp [blurAlphaChannel, hr]]
      rw [getD_range_map_of_lt _ _ _ hlen]
      have h3 : (4 * i + 3) % 4 = 3 := by omega
      have h4 : (4 * i + 3) / 4 = i := by omega
      simp [h3, h4, hi]

/-- C1 witness: the amended statement evaluated on the concrete buffer
`exData` with radius 1. -/
theorem c1_blur_writes_back_witness :
    (blurAlphaChannel exData 2 1 1).length = exData.length
    ∧ (blurAlphaChannel exData 2 1 1).getD 3 0
        = (blurredAlphaOf (extractAlpha exData 2) 2 1 1).getD 0 0 := by
  have h := c1_blur_writes_back_in_place exData 2 1 1
  exact ⟨h.1, h.2.2.2 (by decide) 0 (by decide) (by decide)⟩

/-- C4: the blur stage of outline generation applies radius
`max(1, R)` for every caller-supplied `R`; the effective radius is never
zero, so the early `radius <= 0` return of `blurAlphaChannel` is never
taken, and with `R = 0` the applied radius-1 pass genuinely changes a
field (it is not a no-op): the concrete buffer `exData` changes. -/
theorem c4_effective_blur_radius (R : Nat) :
    effectiveBlurRadius R = max 1 R
    ∧ 1 ≤ effectiveBlurRadius R
    ∧ (∀ data w h, generateOutlineBlur data w h R
        = blurAlphaChannel data w h (max 1 R))
    ∧ generateOutlineBlur exData 2 1 0 ≠ exData := by
  refine ⟨rfl, by simp [effectiveBlurRadius], fun data w h => rfl, by decide⟩

/-- C4 witness: the statement at `R = 0`. -/
theorem c4_effective_blur_radius_witness :
    effectiveBlurRadius 0 = max 1 0 ∧ 1 ≤ effectiveBlurRadius 0 :=
  ⟨(c4_effective_blur_radius 0).1, (c4_effective_blur_radius 0).2.1⟩

/-- C5: for every effective radius `r ≥ 1` and every field of byte values,
the blur is a horizontal pass followed by a vertical pass; each pass
replaces the value at `(x, y)` with the (integer) mean of the
`[i-r, i+r]` window whose out-of-range indices are clamped to the nearest
valid edge index (`clampIdx`, never wrapped, never zero-padded); and every
output value lies within `[0, 255]` (values are `Nat`, so only the upper
bound is stated). -/
theorem c5_blur_two_pass_edge_clamped_mean (alpha : List Nat) (w h r : Nat)
    (hr : 1 ≤ r) (hb : ∀ v ∈ alpha, v ≤ 255) :
    blurAlphaField alpha w h r = vertPass (horizPass alpha w h r) w h r
    ∧ (∀ y x, y < h → x < w →
        (horizPass alpha w h r).getD (y * w + x) 0
          = (((List.range (2 * r + 1)).map (fun (k : Nat) =>
              alpha.getD (y * w + clampIdx w ((x : Int) + (k : Int) - (r : Int))) 0)).sum)
            / (2 * r + 1))
    ∧ (∀ y x, y < h → x < w →
        (vertPass (horizPass alpha w h r) w h r).getD (y * w + x) 0
          = (((List.range (2 * r + 1)).map (fun (k : Nat) =>
              (horizPass alpha w h r).getD
                (clampIdx h ((y : Int) + (k : Int) - (r : Int)) * w + x) 0)).sum)
            / (2 * r + 1))
    ∧ (∀ v ∈ blurAlphaField alpha w h r, v ≤ 255) := by
  have hwh : ∀ y x, y < h → x < w → y * w + x < w * h := by
    intro y x hy hx
    calc y * w + x < y * w + w := by omega
      _ = (y + 1) * w := by ring
      _ ≤ h * w := Nat.mul_le_mul_right w (by omega)
      _ = w * h := Nat.mul_comm h w
  have hyx : ∀ y x, x < w → (y * w + x) / w = y ∧ (y * w + x) % w = x := by
    intro y x hx
    rw [Nat.add_comm (y * w) x]
    constructor
    · rw [Nat.add_mul_div_right x y (by omega : 0 < w), Nat.div_eq_of_lt hx]
      omega
    · rw [Nat.add_mul_mod_self_right, Nat.mod_eq_of_lt hx]
  have hfield : blurAlphaField alpha w h r = vertPass (horizPass alpha w h r) w h r := by
    rw [blurAlphaField, if_neg (by omega : ¬ r = 0)]
    rfl
  refine ⟨hfield, ?_, ?_, ?_⟩
  · intro y x hy hx
    unfold horizPass
    rw [getD_range_map_of_lt _ _ _ (hwh y x hy hx)]
    rw [(hyx y x hx).1, (hyx y x hx).2]
    rfl
  · intro y x hy hx
    unfold vertPass
    rw [getD_range_map_of_lt _ _ _ (hwh y x hy hx)]
    rw [(hyx y x hx).1, (hyx y x hx).2]
    rfl
  · rw [hfield]
    exact vertPass_mem_le _ w h r (horizPass_mem_le alpha w h r hb)

/-- C5 witness: the statement on the concrete field `[0, 255]` (width 2,
height 1) with radius 1. -/
theorem c5_blur_witness :
    blurAlphaField [0, 255] 2 1 1 = vertPass (horizPass [0, 255] 2 1 1) 2 1 1 :=
  (c5_blur_two_pass_edge_clamped_mean [0, 255] 2 1 1 (by norm_num) (by decide)).1

/-- C8: a push with the cursor strictly behind the tail first drops every
entry strictly after the cursor (only indices `0..cursor` survive), then
appends the snapshot; after any push the cursor equals the new tail index
`len(entries) - 1`, so redo is unavailable immediately afterward. -/
theorem c8_push_truncates_then_tails (entries : List Document) (cursor : Int)
    (snap : Document) (h1 : -1 ≤ cursor)
    (h2 : cursor ≤ (entries.length : Int) - 1) :
    (cursor < (entries.length : Int) - 1 →
      (pushHistory entries cursor snap).1
        = entries.take (cursor + 1).toNat ++ [snap])
    ∧ (pushHistory entries cursor snap).2
        = ((pushHistory entries cursor snap).1.length : Int) - 1
    ∧ ¬ canRedo (pushHistory entries cursor snap).1
        (pushHistory entries cursor snap).2 := by
  obtain ⟨ha, hb, -, hd, -⟩ := pushHistory_spec entries cursor snap h1 h2
  refine ⟨hd, by omega, ?_⟩
  unfold canRedo
  omega

/-- C8 witness: pushing with cursor 0 behind a three-entry tail keeps only
entry 0, appends the snapshot, and leaves redo unavailable. -/
theorem c8_push_witness :
    (pushHistory [exDoc, [], exDoc] 0 exDoc).1 = [exDoc, exDoc]
    ∧ ¬ canRedo (pushHistory [exDoc, [], exDoc] 0 exDoc).1
        (pushHistory [exDoc, [], exDoc] 0 exDoc).2 := by
  have h := c8_push_truncates_then_tails [exDoc, [], exDoc] 0 exDoc
    (by decide) (by decide)
  exact ⟨by rw [h.1 (by decide)]; decide, h.2.2⟩

/-- C9: the history invariant — a cursor inside `[0, len)` whenever
entries exist and cursor = -1 exactly when they do not — holds for the
initial empty store and is preserved by `saveHistory` (push), `undo`,
`redo`, and the reset performed when a new generation starts. -/
theorem c9_history_invariant_preserved :
    HistInv ([] : List Document) (-1)
    ∧ ∀ s : EditorState, HistInv s.history s.historyIndex →
        HistInv (saveHistory s).history (saveHistory s).historyIndex
        ∧ HistInv (undo s).history (undo s).historyIndex
        ∧ HistInv (redo s).history (redo s).historyIndex
        ∧ HistInv (resetHistory s).history (resetHistory s).historyIndex := by
  constructor
  · exact ⟨fun h => absurd rfl h, by simp⟩
  intro s hs
  obtain ⟨hin, hiff⟩ := hs
  have hlen0 : s.history = [] → (s.history.length : Int) = 0 := by
    intro he; rw [he]; rfl
  have hbounds : -1 ≤ s.historyIndex ∧ s.historyIndex ≤ (s.history.length : Int) - 1 := by
    rcases eq_or_ne s.history [] with hemp | hne
    · have h1 := hiff.mpr hemp
      have h2 := hlen0 hemp
      omega
    · have := hin hne
      omega
  refine ⟨?_, ?_, ?_, ?_⟩
  · cases hout : s.outlines with
    | none => simpa [saveHistory, hout] using ⟨hin, hiff⟩
    | some doc =>
      obtain ⟨ha, hb, -, -, -⟩ :=
        pushHistory_spec s.history s.historyIndex doc hbounds.1 hbounds.2
      simp only [saveHistory, hout]
      exact histInv_intro _ _ (by omega) (by omega)
  · by_cases hu : 0 < s.historyIndex
    · have hne : s.history ≠ [] := by
        intro he
        have h1 := hiff.mpr he
        omega
      have hr := hin hne
      simp only [undo, if_pos hu]
      exact histInv_intro _ _ (by omega) (by omega)
    · simpa [undo, if_neg hu] using ⟨hin, hiff⟩
  · by_cases hrd : s.historyIndex < (s.history.length : Int) - 1
    · have hge : 0 ≤ s.historyIndex := by
        rcases eq_or_ne s.history [] with hemp | hne
        · have h1 := hiff.mpr hemp
          have h2 := hlen0 hemp
          omega
        · exact (hin hne).1
      simp only [redo, if_pos hrd]
      exact histInv_intro _ _ (by omega) (by omega)
    · simpa [redo, if_neg hrd] using ⟨hin, hiff⟩
  · simp only [resetHistory]
    exact ⟨fun h => absurd rfl h, by simp⟩

/-- C9 witness: preservation applied to the concrete state
`exDragState` (one entry, cursor 0). -/
theorem c9_history_invariant_witness :
    HistInv (saveHistory exDragState).history (saveHistory exDragState).historyIndex :=
  (c9_history_invariant_preserved.2 exDragState
    ⟨fun _ => by decide, by decide⟩).1

/-- C10: when no `outlines` group exists (no generation has rendered yet),
`saveHistory` returns the state unchanged — entries and cursor are not
modified; and in the pre-baseline state (empty history, cursor -1) undo
and redo are unavailable and act as no-ops. -/
theorem c10_save_without_outlines_noop (s : EditorState)
    (h : s.outlines = none) :
    saveHistory s = s
    ∧ (s.history = [] → s.historyIndex = -1 →
        ¬ canUndo s.historyIndex
        ∧ ¬ canRedo s.history s.historyIndex
        ∧ undo s = s ∧ redo s = s) := by
  constructor
  · simp [saveHistory, h]
  · intro h1 h2
    have hlen : (s.history.length : Int) = 0 := by rw [h1]; rfl
    refine ⟨by unfold canUndo; omega, by unfold canRedo; omega, ?_, ?_⟩
    · unfold undo
      rw [if_neg (by omega)]
    · unfold redo
      rw [if_neg (by omega)]

/-- C10 witness: the statement on the concrete pre-generation state. -/
theorem c10_save_witness :
    saveHistory
      { outlines := none, history := [], historyIndex := -1,
        segment := none, lastClickTime := 0, isDragging := false }
      = { outlines := none, history := [], historyIndex := -1,
          segment := none, lastClickTime := 0, isDragging := false }
    ∧ undo
      { outlines := none, history := [], historyIndex := -1,
        segment := none, lastClickTime := 0, isDragging := false }
      = { outlines := none, history := [], historyIndex := -1,
          segment := none, lastClickTime := 0, isDragging := false } := by
  have h := c10_save_without_outlines_noop
    { outlines := none, history := [], historyIndex := -1,
      segment := none, lastClickTime := 0, isDragging := false } rfl
  exact ⟨h.1, (h.2 rfl rfl).2.2.1⟩

/-- C2 counterexample: starting from a state whose only node was grabbed
by a single click (last commit `exDoc` at the tail of a one-entry
history), a drag of (+1,0) followed by (-1,0) has zero net displacement —
after PointerUp the document equals the last committed snapshot — and yet
a snapshot IS pushed: the history grows from one entry to two. -/
theorem c2_net_zero_drag_still_pushes :
    (onMouseUp (onMouseDrag (onMouseDrag exDragState (1, 0)) (-1, 0))).outlines
      = some (exDragState.history.getD 0 [])
    ∧ exDragState.history.length = 1
    ∧ (onMouseUp (onMouseDrag (onMouseDrag exDragState (1, 0)) (-1, 0))).history.length
        = 2 := by
  decide

/-- C2 amended: on PointerUp a snapshot is pushed iff at least one
drag-move event occurred since PointerDown with a grabbed node (the
`isDragging` flag) and the `outlines` group exists — regardless of the
drag's net displacement; the session returns to Idle (no grabbed node,
not dragging) in either case, and a prior insertion's committed snapshot
is untouched (the history is only appended to). -/
theorem c2_pointer_up_pushes_iff_drag_flag (s : EditorState) :
    ((onMouseUp s).segment = none ∧ (onMouseUp s).isDragging = false)
    ∧ (s.isDragging = false →
        (onMouseUp s).history = s.history
        ∧ (onMouseUp s).historyIndex = s.historyIndex)
    ∧ (s.isDragging = true → ∀ doc, s.outlines = some doc →
        (onMouseUp s).history
          = (if s.historyIndex < (s.history.length : Int) - 1
             then jsSlice s.history (s.historyIndex + 1) else s.history) ++ [doc]
        ∧ (onMouseUp s).historyIndex = s.historyIndex + 1)
    ∧ (s.isDragging = true → s.outlines = none →
        (onMouseUp s).history = s.history
        ∧ (onMouseUp s).historyIndex = s.historyIndex) := by
  refine ⟨?_, ?_, ?_, ?_⟩
  · cases hd : s.isDragging <;> simp [onMouseUp, hd]
  · intro hd
    simp [onMouseUp, hd]
  · intro hd doc hout
    simp [onMouseUp, hd, saveHistory, hout, pushHistory, jsSlice]
  · intro hd hout
    simp [onMouseUp, hd, saveHistory, hout]

/-- C2 witness: with the drag flag set and `exDoc` current, PointerUp
appends exactly one snapshot equal to the current document. -/
theorem c2_pointer_up_witness :
    (onMouseUp { exDragState with isDragging := true }).history
      = [exDoc, exDoc] := by
  have h := (c2_pointer_up_pushes_iff_drag_flag
    { exDragState with isDragging := true }).2.2.1 rfl exDoc rfl
  rw [h.1]
  decide

/-- C3 counterexample: with a live scope, a 100x100 image, a raster, and
zero paths (no `outlines` group), the aligned SVG export and the PDF
export still produce output — neither is a no-op that writes nothing. -/
theorem c3_zero_paths_still_writes :
    exportSVGAligned exNoPathEnv ≠ none ∧ exportPDF exNoPathEnv ≠ none := by
  decide

/-- C3 amended: with zero paths, only `exportSVGTrimmed` is a no-op, and
only when the `outlines` group is absent — when the group exists (even
empty) under a passing guard, trimmed writes its paths too;
`exportSVGAligned` and `exportPDF` still write a document (with empty
path content) whenever the scope exists and both image dimensions are
nonzero.  All three exports return without output — rather than
throwing — when the scope is missing or an image dimension is zero. -/
theorem c3_export_zero_paths_behavior (e : ExportEnv) :
    (e.outlines = none → exportSVGTrimmed e = none)
    ∧ ((¬ e.scopePresent = true ∨ e.imageWidth = 0 ∨ e.imageHeight = 0) →
        exportSVGAligned e = none ∧ exportSVGTrimmed e = none ∧ exportPDF e = none)
    ∧ (e.scopePresent = true → e.imageWidth ≠ 0 → e.imageHeight ≠ 0 →
        exportSVGAligned e
          = some ⟨0, 0, (e.imageWidth : Int), (e.imageHeight : Int), e.outlines.getD []⟩
        ∧ exportPDF e
          = some ⟨e.imageWidth, e.imageHeight, e.rasterPresent, e.outlines.getD []⟩)
    ∧ (e.scopePresent = true → e.imageWidth ≠ 0 → e.imageHeight ≠ 0 →
        ∀ doc, e.outlines = some doc → exportSVGTrimmed e = some doc) := by
  have hguard : e.scopePresent = true → e.imageWidth ≠ 0 → e.imageHeight ≠ 0 →
      ¬ (¬ e.scopePresent = true ∨ e.imageWidth = 0 ∨ e.imageHeight = 0) := by
    intro h1 h2 h3
    rintro (h | h | h)
    · exact h h1
    · exact h2 h
    · exact h3 h
  refine ⟨?_, ?_, ?_, ?_⟩
  · intro hout
    by_cases hg : ¬ e.scopePresent = true ∨ e.imageWidth = 0 ∨ e.imageHeight = 0
    · unfold exportSVGTrimmed
      rw [if_pos hg]
    · unfold exportSVGTrimmed
      rw [if_neg hg, hout]
  · intro hg
    exact ⟨by unfold exportSVGAligned; rw [if_pos hg],
           by unfold exportSVGTrimmed; rw [if_pos hg],
           by unfold exportPDF; rw [if_pos hg]⟩
  · intro h1 h2 h3
    exact ⟨by unfold exportSVGAligned; rw [if_neg (hguard h1 h2 h3)],
           by unfold exportPDF; rw [if_neg (hguard h1 h2 h3)]⟩
  · intro h1 h2 h3 doc hout
    unfold exportSVGTrimmed
    rw [if_neg (hguard h1 h2 h3), hout]

/-- C3 witness: the amended statement on two concrete zero-path
environments — trimmed writes nothing when the `outlines` group is
absent, but writes (an empty document) when the group exists empty. -/
theorem c3_export_witness :
    exportSVGTrimmed exNoPathEnv = none
    ∧ exportSVGTrimmed { exNoPathEnv with outlines := some [] } = some [] :=
  ⟨(c3_export_zero_paths_behavior exNoPathEnv).1 rfl,
   (c3_export_zero_paths_behavior
      { exNoPathEnv with outlines := some [] }).2.2.2 rfl (by decide) (by decide)
      [] rfl⟩

/-- C6: a single (non-double) PointerDown hitting a path stroke inserts
exactly one new node at the hit location's curve index + 1 with zero
handle offsets (the path grows by one node, the new node sits at that
index, earlier nodes are unchanged, later nodes shift up by one, other
paths are untouched), commits exactly one HistorySnapshot immediately
(the new tail snapshot is the post-insertion document and the cursor
advances by one), transitions to Dragging on the new node, and the commit
is independent of any subsequent release: a PointerUp without drag leaves
the history as committed. -/
theorem c6_single_click_stroke_inserts (s : EditorState) (now : Int)
    (p c : Nat) (pt : Int × Int) (doc : Document)
    (hout : s.outlines = some doc)
    (_hsingle : ¬ now - s.lastClickTime < 300)
    (hp : p < doc.length)
    (hc : c + 1 ≤ (doc.getD p []).length)
    (hlo : -1 ≤ s.historyIndex)
    (hhi : s.historyIndex ≤ (s.history.length : Int) - 1) :
    (onMouseDown s now (.strokeHit p c) pt).outlines
      = some (docInsert doc p (c + 1) pt)
    ∧ ((docInsert doc p (c + 1) pt).getD p []).length
        = (doc.getD p []).length + 1
    ∧ ((docInsert doc p (c + 1) pt).getD p []).getD (c + 1) (zeroNode (0, 0))
        = zeroNode pt
    ∧ (∀ j, j < c + 1 →
        ((docInsert doc p (c + 1) pt).getD p []).getD j (zeroNode (0, 0))
          = (doc.getD p []).getD j (zeroNode (0, 0)))
    ∧ (∀ j, c + 1 < j →
        ((docInsert doc p (c + 1) pt).getD p []).getD j (zeroNode (0, 0))
          = (doc.getD p []).getD (j - 1) (zeroNode (0, 0)))
    ∧ (∀ q, q ≠ p → (docInsert doc p (c + 1) pt).getD q [] = doc.getD q [])
    ∧ ((onMouseDown s now (.strokeHit p c) pt).history.length : Int)
        = s.historyIndex + 2
    ∧ (onMouseDown s now (.strokeHit p c) pt).history.getD
        (s.historyIndex + 1).toNat [] = docInsert doc p (c + 1) pt
    ∧ (s.historyIndex = (s.history.length : Int) - 1 →
        (onMouseDown s now (.strokeHit p c) pt).history
          = s.history ++ [docInsert doc p (c + 1) pt])
    ∧ (onMouseDown s now (.strokeHit p c) pt).historyIndex = s.historyIndex + 1
    ∧ (onMouseDown s now (.strokeHit p c) pt).segment = some (p, c + 1)
    ∧ (onMouseDown s now (.strokeHit p c) pt).isDragging = false
    ∧ (onMouseUp (onMouseDown s now (.strokeHit p c) pt)).history
        = (onMouseDown s now (.strokeHit p c) pt).history := by
  have hstate : onMouseDown s now (.strokeHit p c) pt
      = saveHistory { s with segment := some (p, c + 1), isDragging := false,
                             lastClickTime := now,
                             outlines := some (docInsert doc p (c + 1) pt) } := by
    simp [onMouseDown, hout]
  obtain ⟨ha, hb, hgd, -, he⟩ :=
    pushHistory_spec s.history s.historyIndex (docInsert doc p (c + 1) pt) hlo hhi
  have hfields :
      (onMouseDown s now (.strokeHit p c) pt).history
        = (pushHistory s.history s.historyIndex (docInsert doc p (c + 1) pt)).1
      ∧ (onMouseDown s now (.strokeHit p c) pt).historyIndex
          = (pushHistory s.history s.historyIndex (docInsert doc p (c + 1) pt)).2
      ∧ (onMouseDown s now (.strokeHit p c) pt).outlines
          = some (docInsert doc p (c + 1) pt)
      ∧ (onMouseDown s now (.strokeHit p c) pt).segment = some (p, c + 1)
      ∧ (onMouseDown s now (.strokeHit p c) pt).isDragging = false := by
    rw [hstate]
    simp [saveHistory]
  refine ⟨hfields.2.2.1, ?_, ?_, ?_, ?_, ?_, ?_, ?_, ?_, ?_, hfields.2.2.2.1,
    hfields.2.2.2.2, ?_⟩
  · unfold docInsert
    rw [getD_set_self _ p _ _ hp, insertAt_length _ _ _ hc]
  · unfold docInsert
    rw [getD_set_self _ p _ _ hp, insertAt_getD_self _ _ _ _ hc]
  · intro j hj
    unfold docInsert
    rw [getD_set_self _ p _ _ hp, insertAt_getD_lt _ _ _ _ _ hj hc]
  · intro j hj
    unfold docInsert
    rw [getD_set_self _ p _ _ hp, insertAt_getD_gt _ _ _ _ _ hj hc]
  · intro q hq
    unfold docInsert
    rw [getD_set_ne _ p q _ _ hq]
  · rw [hfields.1]
    omega
  · rw [hfields.1]
    exact hgd
  · intro htail
    rw [hfields.1]
    exact he htail
  · rw [hfields.2.1]
    omega
  · rw [show onMouseUp (onMouseDown s now (.strokeHit p c) pt)
        = { (onMouseDown s now (.strokeHit p c) pt) with
            isDragging := false, segment := none } from by
      unfold onMouseUp
      rw [hfields.2.2.2.2]
      simp]

/-- C6 witness: inserting on the stroke of the one-node document `exDoc`
at curve index 0 places the new node at index 1 and advances the cursor. -/
theorem c6_insert_witness :
    (onMouseDown { exDragState with lastClickTime := -1000 } 100
        (.strokeHit 0 0) (5, 5)).outlines = some (docInsert exDoc 0 1 (5, 5))
    ∧ (onMouseDown { exDragState with lastClickTime := -1000 } 100
        (.strokeHit 0 0) (5, 5)).historyIndex = 0 + 1 := by
  have h := c6_single_click_stroke_inserts
    { exDragState with lastClickTime := -1000 } 100 0 0 (5, 5) exDoc rfl
    (by decide) (by decide) (by decide) (by decide) (by decide)
  exact ⟨h.1, h.2.2.2.2.2.2.2.2.2.1⟩

/-- C7: a PointerDown on an existing node within 300ms of the previous
PointerDown removes exactly that node from its path (the path shrinks by
one node, earlier nodes are unchanged, later nodes shift down by one,
other paths are untouched), commits exactly one HistorySnapshot
synchronously (the new tail snapshot is the post-removal document and the
cursor advances by one), and enters no drag state: the session is Idle
with no grabbed node. -/
theorem c7_double_click_removes_node (s : EditorState) (now : Int)
    (p n : Nat) (pt : Int × Int) (doc : Document)
    (hout : s.outlines = some doc)
    (hdouble : now - s.lastClickTime < 300)
    (hp : p < doc.length)
    (hn : n < (doc.getD p []).length)
    (hlo : -1 ≤ s.historyIndex)
    (hhi : s.historyIndex ≤ (s.history.length : Int) - 1) :
    (onMouseDown s now (.segmentHit p n) pt).outlines = some (docRemove doc p n)
    ∧ ((docRemove doc p n).getD p []).length + 1 = (doc.getD p []).length
    ∧ (∀ j, j < n →
        ((docRemove doc p n).getD p []).getD j (zeroNode (0, 0))
          = (doc.getD p []).getD j (zeroNode (0, 0)))
    ∧ (∀ j, n ≤ j →
        ((docRemove doc p n).getD p []).getD j (zeroNode (0, 0))
          = (doc.getD p []).getD (j + 1) (zeroNode (0, 0)))
    ∧ (∀ q, q ≠ p → (docRemove doc p n).getD q [] = doc.getD q [])
    ∧ ((onMouseDown s now (.segmentHit p n) pt).history.length : Int)
        = s.historyIndex + 2
    ∧ (onMouseDown s now (.segmentHit p n) pt).history.getD
        (s.historyIndex + 1).toNat [] = docRemove doc p n
    ∧ (s.historyIndex = (s.history.length : Int) - 1 →
        (onMouseDown s now (.segmentHit p n) pt).history
          = s.history ++ [docRemove doc p n])
    ∧ (onMouseDown s now (.segmentHit p n) pt).historyIndex = s.historyIndex + 1
    ∧ (onMouseDown s now (.segmentHit p n) pt).segment = none
    ∧ (onMouseDown s now (.segmentHit p n) pt).isDragging = false := by
  have hstate : onMouseDown s now (.segmentHit p n) pt
      = saveHistory { s with segment := none, isDragging := false,
                             lastClickTime := now,
                             outlines := some (docRemove doc p n) } := by
    simp [onMouseDown, hout, hdouble]
  obtain ⟨ha, hb, hgd, -, he⟩ :=
    pushHistory_spec s.history s.historyIndex (docRemove doc p n) hlo hhi
  have hfields :
      (onMouseDown s now (.segmentHit p n) pt).history
        = (pushHistory s.history s.historyIndex (docRemove doc p n)).1
      ∧ (onMouseDown s now (.segmentHit p n) pt).historyIndex
          = (pushHistory s.history s.historyIndex (docRemove doc p n)).2
      ∧ (onMouseDown s now (.segmentHit p n) pt).outlines
          = some (docRemove doc p n)
      ∧ (onMouseDown s now (.segmentHit p n) pt).segment = none
      ∧ (onMouseDown s now (.segmentHit p n) pt).isDragging = false := by
    rw [hstate]
    simp [saveHistory]
  have hnle : n ≤ (doc.getD p []).length := by omega
  refine ⟨hfields.2.2.1, ?_, ?_, ?_, ?_, ?_, ?_, ?_, ?_,
    hfields.2.2.2.1, hfields.2.2.2.2⟩
  · unfold docRemove
    rw [getD_set_self _ p _ _ hp, removeAt_length _ _ hn]
  · intro j hj
    unfold docRemove
    rw [getD_set_self _ p _ _ hp, removeAt_getD_lt _ _ _ _ hj hnle]
  · intro j hj
    unfold docRemove
    rw [getD_set_self _ p _ _ hp, removeAt_getD_ge _ _ _ _ hj hn]
  · intro q hq
    unfold docRemove
    rw [getD_set_ne _ p q _ _ hq]
  · rw [hfields.1]
    omega
  · rw [hfields.1]
    exact hgd
  · intro htail
    rw [hfields.1]
    exact he htail
  · rw [hfields.2.1]
    omega

/-- C7 witness: double-clicking (100ms after the previous down) the only
node of `exDoc` removes it, leaves no grabbed node, and advances the
cursor. -/
theorem c7_remove_witness :
    (onMouseDown exDragState 100 (.segmentHit 0 0) (0, 0)).outlines
      = some (docRemove exDoc 0 0)
    ∧ (onMouseDown exDragState 100 (.segmentHit 0 0) (0, 0)).segment = none := by
  have h := c7_double_click_removes_node exDragState 100 0 0 (0, 0) exDoc rfl
    (by decide) (by decide) (by decide) (by decide) (by decide)
  exact ⟨h.1, h.2.2.2.2.2.2.2.2.2.1⟩

end CallMeDesigner
